import Mathlib

/-!
# Verification of the rockets resequencing and state-projection engine

Shallow embedding of `internal/rockets/service.go` and
`internal/rockets/repository.go` (package `rockets`) of the
`lunar-test` repository, together with proofs of the specification's
testable properties.

Modelling conventions:
* `uuid.UUID` (the channel identifier) is opaque to the core; it is
  modelled as `Nat`.
* `time.Time` is opaque to the core (stored and copied, never compared);
  it is modelled as `Int`.
* Go `int` arithmetic on `Speed` is modelled as `Int`; no property in
  scope distinguishes wrap-around from unbounded arithmetic (the only
  arithmetic performed is `+=` / `-=` of a single value).
* A JSON payload `map[string]interface{}` is read by `applyMessage` only
  through the six field lookups `type`, `launchSpeed`, `mission`, `by`,
  `reason`, `newMission`, each with a Go type assertion.  The payload is
  therefore modelled as a record of `Option` fields: `some v` exactly
  when the key is present with the asserted dynamic type (`float64`
  values are modelled by the `Int` that Go's `int(v)` conversion
  produces, which is how every numeric payload field is consumed).
* The Mongo-backed `MessageRepository` is modelled as the list of stored
  messages (`log`), and the Mongo-backed `RocketsRepository` as the list
  of stored rockets (`store`).  Mongo's ascending sort on
  `metadata.messageNumber` is modelled with `List.insertionSort` (any
  stable sort; Mongo does not specify tie order and no property in
  scope depends on it).
* Fallible external calls (Mongo I/O) are modelled with explicit Boolean
  failure oracles: each `Bool` parameter of `Process`/`Ingest` decides
  whether the corresponding storage call fails on this invocation.
* A Go `nil`-pointer dereference (a runtime panic) is modelled as the
  distinguished outcome `GoErr.nilPanic`, kept separate from ordinary
  `error` returns (`GoErr.err`).
-/

namespace Rockets

/-- Error outcomes of the Go code: an ordinary `error` value carrying a
string, or a runtime panic from dereferencing a `nil`
`*int` (`rocket.LastMessageNumber`). -/
inductive GoErr where
  | err (s : String)
  | nilPanic
deriving DecidableEq, Repr

/-- Error-message constant `ProcessMessageError` (declared in the
repository outside the orchestrator file; its string value is opaque to
the control flow). -/
def ProcessMessageError : String := "error processing message"

/-- Error-message constant `StoreMessageError`. -/
def StoreMessageError : String := "error storing message"

/-- `Metadata` of `model.go`: channel, sequence number, producer
timestamp and kind discriminator of one message. -/
structure Metadata where
  channel : Nat
  messageNumber : Int
  messageTime : Int
  messageType : String
deriving DecidableEq, Repr

/-- The kind-specific payload `map[string]interface{}` of `model.go`,
restricted to the six typed field reads `applyMessage` performs: a field
is `some v` exactly when the key is present with the asserted dynamic
type. -/
structure MsgPayload where
  type : Option String := none
  launchSpeed : Option Int := none
  mission : Option String := none
  by_ : Option Int := none
  reason : Option String := none
  newMission : Option String := none
deriving DecidableEq, Repr

/-- `Message` of `model.go`. -/
structure Message where
  metadata : Metadata
  message : MsgPayload
deriving DecidableEq, Repr

/-- `Rocket` of `model.go`: the persisted projection of one channel. -/
structure Rocket where
  channel : Nat
  type : String := ""
  speed : Int := 0
  mission : String := ""
  status : String := ""
  explosionReason : Option String := none
  lastMessageNumber : Option Int := none
  lastMessageTime : Option Int := none
deriving DecidableEq, Repr

/-- `applyMessage` of `service.go`: first update
`LastMessageNumber`/`LastMessageTime` from the incoming message, then
dispatch on `Metadata.MessageType`.  Go mutates `rocket` through a
pointer and returns `error`; here the updated rocket is returned in
`Except`, whose `error` case corresponds to a non-`nil` Go `error`
(callers discard the partially mutated rocket on error). -/
def applyMessage (rocket : Rocket) (msg : Message) : Except String Rocket :=
  let rocket := { rocket with
    lastMessageNumber := some msg.metadata.messageNumber
    lastMessageTime := some msg.metadata.messageTime }
  match msg.metadata.messageType with
  | "RocketLaunched" =>
      -- `, _ :=` type assertions: missing fields default to zero values
      let rocketType := msg.message.type.getD ""
      let launchSpeed := msg.message.launchSpeed.getD 0
      let mission := msg.message.mission.getD ""
      .ok { rocket with
        type := rocketType
        speed := launchSpeed
        mission := mission
        status := "active" }
  | "RocketSpeedIncreased" =>
      match msg.message.by_ with
      | none => .error "invalid RocketSpeedIncreased message"
      | some by_ => .ok { rocket with speed := rocket.speed + by_ }
  | "RocketSpeedDecreased" =>
      match msg.message.by_ with
      | none => .error "invalid RocketSpeedDecreased message"
      | some by_ => .ok { rocket with speed := rocket.speed - by_ }
  | "RocketExploded" =>
      let reason := msg.message.reason.getD ""
      .ok { rocket with
        explosionReason := some reason
        status := "exploded" }
  | "RocketMissionChanged" =>
      match msg.message.newMission with
      | none => .error "invalid RocketMissionChanged message"
      | some newMission => .ok { rocket with mission := newMission }
  | _ => .error "unknown message type"

/-- `buildRocketState` of `service.go`: start from a fresh active rocket
for the channel and apply each message in list order, aborting on the
first `applyMessage` error. -/
def buildRocketState (channelID : Nat) (messages : List Message) :
    Except String Rocket :=
  let rocket : Rocket := { channel := channelID, status := "active" }
  messages.foldlM applyMessage rocket

/-- `MongoRocketsRepository.FindByChannel`, restricted to its effect on
stored data: the first stored rocket whose channel matches. -/
def FindByChannel (store : List Rocket) (channel : Nat) : Option Rocket :=
  store.find? (fun r => r.channel == channel)

/-- `MongoRocketsRepository.Upsert`: replace the stored rocket keyed by
the rocket's channel, inserting when absent. -/
def Upsert (store : List Rocket) (rocket : Rocket) : List Rocket :=
  if store.any (fun r => r.channel == rocket.channel) then
    store.map (fun r => if r.channel == rocket.channel then rocket else r)
  else
    store ++ [rocket]

/-- Comparison used by Mongo's ascending sort on
`metadata.messageNumber`. -/
def msgLe (a b : Message) : Prop :=
  a.metadata.messageNumber ≤ b.metadata.messageNumber

instance : DecidableRel msgLe := fun a b =>
  inferInstanceAs (Decidable (a.metadata.messageNumber ≤ b.metadata.messageNumber))

instance : IsTotal Message msgLe :=
  ⟨fun a b => Int.le_total a.metadata.messageNumber b.metadata.messageNumber⟩

instance : IsTrans Message msgLe :=
  ⟨fun _ _ _ hab hbc => le_trans hab hbc⟩

/-- `MongoMessageRepository.FindAfterNumber`: all logged messages of the
channel with sequence number strictly greater than `number`, ascending
by sequence number. -/
def FindAfterNumber (log : List Message) (channel : Nat) (number : Int) :
    List Message :=
  List.insertionSort msgLe
    (log.filter (fun m =>
      m.metadata.channel == channel && number < m.metadata.messageNumber))

/-- The `for _, msg := range messages` loop of `Process`: apply a message
only when its sequence number equals `*rocket.LastMessageNumber + 1`
(re-read after every application), stop at the first message that does
not; an `applyMessage` error aborts with `ProcessMessageError`; the
dereference of a `nil` cursor inside the loop is the panic outcome. -/
def foldContiguous (rocket : Rocket) : List Message → Except GoErr Rocket
  | [] => .ok rocket
  | msg :: rest =>
    match rocket.lastMessageNumber with
    | none => .error .nilPanic
    | some lastNum =>
      if msg.metadata.messageNumber = lastNum + 1 then
        match applyMessage rocket msg with
        | .error _ => .error (.err ProcessMessageError)
        | .ok rocket' => foldContiguous rocket' rest
      else
        .ok rocket

/-- The state of the two external stores: the message log and the rocket
projection store. -/
structure ProcState where
  log : List Message
  store : List Rocket
deriving DecidableEq, Repr

/-- Lines 96–120 of `Process` (`service.go`), entered with a non-`nil`
rocket in hand: dereference the cursor, fetch the messages after it,
fold the contiguous prefix, and upsert the result.  `fanFail` (resp.
`upFail`) injects an I/O failure into `FindAfterNumber` (resp.
`Upsert`).  Returns the resulting store state and the `error` value of
the Go call (`none` = `nil`). -/
def reconcile (s : ProcState) (channel : Nat) (rocket : Rocket)
    (fanFail upFail : Bool) : ProcState × Option GoErr :=
  match rocket.lastMessageNumber with
  | none => (s, some .nilPanic)
  | some lastNum =>
    if fanFail then
      (s, some (.err ProcessMessageError))
    else
      match foldContiguous rocket (FindAfterNumber s.log channel lastNum) with
      | .error e =>
          match e with
          | .nilPanic => (s, some .nilPanic)
          | .err _ => (s, some (.err ProcessMessageError))
      | .ok rocket' =>
          if upFail then
            (s, some (.err ProcessMessageError))
          else
            ({ s with store := Upsert s.store rocket' }, none)

/-- `Process` of `service.go` (the per-channel mutex is held for the
whole body and is not part of the sequential state).  `fbcFail` injects
an I/O failure into `FindByChannel`: the Go code only logs that error,
leaving `rocket == nil` exactly as in the not-found case. -/
def Process (s : ProcState) (fbcFail fanFail upFail : Bool)
    (msg : Message) : ProcState × Option GoErr :=
  if msg.metadata.messageNumber = 1 then
    match buildRocketState msg.metadata.channel [msg] with
    | .error _ => (s, some (.err ProcessMessageError))
    | .ok rocket => reconcile s msg.metadata.channel rocket fanFail upFail
  else
    match (if fbcFail then none else FindByChannel s.store msg.metadata.channel) with
    | none => (s, none)
    | some rocket => reconcile s msg.metadata.channel rocket fanFail upFail

/-- `Ingest` of `service.go`: durably append the message
(`MessageRepository.Store`, whose failure `storeFail` aborts the call),
then run `Process` on the updated log. -/
def Ingest (s : ProcState) (storeFail fbcFail fanFail upFail : Bool)
    (msg : Message) : ProcState × Option GoErr :=
  if storeFail then
    (s, some (.err StoreMessageError))
  else
    Process { s with log := s.log ++ [msg] } fbcFail fanFail upFail msg

/-- Failure-free ingestion of a whole arrival sequence, keeping the
store state (`Ingest` always returns a well-defined state even when it
reports an error). -/
def ingestAll (s : ProcState) (msgs : List Message) : ProcState :=
  msgs.foldl (fun s m => (Ingest s false false false false m).1) s

/-- The empty initial state: nothing logged, nothing projected. -/
def initState : ProcState := ⟨[], []⟩

/-! ## Basic facts about `applyMessage` -/

/-- A message is *valid* when `applyMessage` succeeds on it; success
depends only on the message (its kind and the presence of the payload
fields that kind requires), never on the rocket. -/
def msgValid (m : Message) : Bool :=
  match m.metadata.messageType with
  | "RocketLaunched" => true
  | "RocketSpeedIncreased" => m.message.by_.isSome
  | "RocketSpeedDecreased" => m.message.by_.isSome
  | "RocketExploded" => true
  | "RocketMissionChanged" => m.message.newMission.isSome
  | _ => false

/-- The rocket `applyMessage` produces on success (and `r` itself on
failure, where Go discards the partially mutated copy). -/
def applyValid (r : Rocket) (m : Message) : Rocket :=
  match applyMessage r m with
  | .ok r' => r'
  | .error _ => r

theorem applyMessage_eq_ok (r : Rocket) (m : Message) (h : msgValid m = true) :
    applyMessage r m = .ok (applyValid r m) := by
  unfold applyValid
  unfold msgValid at h
  unfold applyMessage
  split at h <;> simp_all <;> split <;> simp_all

theorem applyMessage_isValid {r : Rocket} {m : Message} {r' : Rocket}
    (h : applyMessage r m = .ok r') : msgValid m = true := by
  unfold applyMessage at h
  unfold msgValid
  split at h <;> simp_all <;> split at h <;> simp_all

theorem applyMessage_cursor {r : Rocket} {m : Message} {r' : Rocket}
    (h : applyMessage r m = .ok r') :
    r'.lastMessageNumber = some m.metadata.messageNumber ∧
    r'.lastMessageTime = some m.metadata.messageTime := by
  unfold applyMessage at h
  split at h <;> (try split at h) <;>
    first
      | exact Except.noConfusion h
      | (injection h with h; subst h; exact ⟨rfl, rfl⟩)

theorem applyMessage_channel {r : Rocket} {m : Message} {r' : Rocket}
    (h : applyMessage r m = .ok r') : r'.channel = r.channel := by
  unfold applyMessage at h
  split at h <;> (try split at h) <;>
    first
      | exact Except.noConfusion h
      | (injection h with h; subst h; rfl)

theorem applyValid_cursor (r : Rocket) (m : Message) (h : msgValid m = true) :
    (applyValid r m).lastMessageNumber = some m.metadata.messageNumber ∧
    (applyValid r m).lastMessageTime = some m.metadata.messageTime :=
  applyMessage_cursor (applyMessage_eq_ok r m h)

theorem applyValid_channel (r : Rocket) (m : Message) (h : msgValid m = true) :
    (applyValid r m).channel = r.channel :=
  applyMessage_channel (applyMessage_eq_ok r m h)

/-! ## Basic facts about the projection store -/

theorem find_map_replace (store : List Rocket) (r : Rocket)
    (h : store.any (fun x => x.channel == r.channel) = true) :
    (store.map fun x => if x.channel == r.channel then r else x).find?
      (fun x => x.channel == r.channel) = some r := by
  induction store with
  | nil => simp at h
  | cons hd tl ih =>
      by_cases hhd : hd.channel == r.channel
      · rw [List.map_cons, if_pos hhd]
        exact List.find?_cons_of_pos _ (by simp)
      · rw [List.map_cons, if_neg hhd,
          List.find?_cons_of_neg _ (by simpa using hhd)]
        apply ih
        simp only [List.any_cons] at h
        simpa [hhd] using h

theorem FindByChannel_Upsert_self (store : List Rocket) (r : Rocket) :
    FindByChannel (Upsert store r) r.channel = some r := by
  unfold FindByChannel Upsert
  split
  · exact find_map_replace store r (by assumption)
  · rename_i hany
    have hnone : store.find? (fun x => x.channel == r.channel) = none := by
      rw [List.find?_eq_none]
      intro x hx hxc
      have hstore : store.any (fun x => x.channel == r.channel) = true :=
        List.any_eq_true.mpr ⟨x, hx, hxc⟩
      simp_all
    rw [List.find?_append, hnone]
    simp

theorem FindByChannel_Upsert_channel {store : List Rocket} {r : Rocket}
    {ch : Nat} {r' : Rocket}
    (h : FindByChannel (Upsert store r) ch = some r') : r'.channel = ch := by
  have hmem := List.find?_some h
  simpa using hmem

theorem FindByChannel_channel {store : List Rocket} {ch : Nat} {r : Rocket}
    (h : FindByChannel store ch = some r) : r.channel = ch := by
  have := List.find?_some h
  simpa using this

theorem FindByChannel_mem {store : List Rocket} {ch : Nat} {r : Rocket}
    (h : FindByChannel store ch = some r) : r ∈ store :=
  List.mem_of_find?_eq_some h

theorem mem_Upsert {store : List Rocket} {r x : Rocket}
    (h : x ∈ Upsert store r) : x ∈ store ∨ x = r := by
  unfold Upsert at h
  split at h
  · rcases List.mem_map.mp h with ⟨y, hy, hyx⟩
    split at hyx
    · right; exact hyx.symm
    · left; exact hyx ▸ hy
  · rcases List.mem_append.mp h with h | h
    · left; exact h
    · right; simpa using h

/-! ## Concrete fixtures (used by witnesses and counterexamples) -/

/-- A well-formed `RocketLaunched` message on channel 7. -/
def sampleLaunch (n : Int) : Message where
  metadata := { channel := 7, messageNumber := n, messageTime := n,
                messageType := "RocketLaunched" }
  message := { type := some "Falcon-9", launchSpeed := some 500,
               mission := some "ARTEMIS" }

/-- A well-formed `RocketSpeedIncreased` message on channel 7. -/
def sampleInc (n x : Int) : Message where
  metadata := { channel := 7, messageNumber := n, messageTime := n,
                messageType := "RocketSpeedIncreased" }
  message := { by_ := some x }

/-- A well-formed `RocketSpeedDecreased` message on channel 7. -/
def sampleDec (n x : Int) : Message where
  metadata := { channel := 7, messageNumber := n, messageTime := n,
                messageType := "RocketSpeedDecreased" }
  message := { by_ := some x }

/-- A message on channel 7 whose kind is none of the five known kinds. -/
def sampleBogus (n : Int) : Message where
  metadata := { channel := 7, messageNumber := n, messageTime := n,
                messageType := "Bogus" }
  message := {}

/-- An exploded projection on channel 7. -/
def sampleExploded : Rocket :=
  { channel := 7, type := "Falcon-9", speed := 500, mission := "ARTEMIS",
    status := "exploded", explosionReason := some "PRESSURE_VESSEL_FAILURE",
    lastMessageNumber := some 3, lastMessageTime := some 3 }

/-- The projection after ingesting `sampleLaunch 1` into the empty
state. -/
def rocketAfterOne : Rocket :=
  applyValid { channel := 7, status := "active" } (sampleLaunch 1)

/-- A state whose log holds message 1 (applied, cursor at 1) and an
unknown-kind message 2. -/
def stateWithBogusTwo : ProcState :=
  ⟨[sampleLaunch 1, sampleBogus 2], [rocketAfterOne]⟩

/-! ## Claims about the state transition function (C3, C7, C8) -/

/-- C3 counterexample: the claim "no message kind transitions status
back to `active` once `exploded` is reached" is false — `applyMessage`
maps an exploded projection and a `RocketLaunched` message to a
projection whose status is `active` again. -/
theorem launched_reactivates_exploded :
    sampleExploded.status = "exploded" ∧
    applyMessage sampleExploded (sampleLaunch 4) =
      .ok (applyValid sampleExploded (sampleLaunch 4)) ∧
    (applyValid sampleExploded (sampleLaunch 4)).status = "active" :=
  ⟨rfl, rfl, rfl⟩

/-- C3 (amended): once a projection is exploded, applying any message of
a kind other than `RocketLaunched` never yields status `active`: every
successful application keeps status `exploded`.  (`RocketLaunched`
unconditionally resets status to `active`.) -/
theorem exploded_status_monotone_unless_launched
    (r : Rocket) (m : Message) (r' : Rocket)
    (hst : r.status = "exploded")
    (hk : m.metadata.messageType ≠ "RocketLaunched")
    (h : applyMessage r m = .ok r') : r'.status = "exploded" := by
  unfold applyMessage at h
  split at h <;> (try split at h) <;>
    first
      | exact Except.noConfusion h
      | (injection h with h; subst h; first | rfl | exact hst)
      | (rename_i heq; exact absurd heq hk)

/-- C3 witness: the amended theorem applied to a concrete exploded
projection and a concrete `RocketSpeedIncreased` message. -/
theorem exploded_status_monotone_unless_launched_witness :
    (applyValid sampleExploded (sampleInc 4 10)).status = "exploded" :=
  exploded_status_monotone_unless_launched sampleExploded (sampleInc 4 10)
    (applyValid sampleExploded (sampleInc 4 10)) rfl (by decide) rfl

/-- C7: `applyMessage` stamps the cursor before dispatching — every
successfully applied message leaves `lastMessageNumber` equal to its
sequence number and `lastMessageTime` equal to its timestamp — and any
kind outside the five known kinds fails with the unknown-kind error. -/
theorem cursor_update_precedes_dispatch (r : Rocket) (m : Message) :
    (∀ r', applyMessage r m = .ok r' →
      r'.lastMessageNumber = some m.metadata.messageNumber ∧
      r'.lastMessageTime = some m.metadata.messageTime) ∧
    (m.metadata.messageType ≠ "RocketLaunched" →
     m.metadata.messageType ≠ "RocketSpeedIncreased" →
     m.metadata.messageType ≠ "RocketSpeedDecreased" →
     m.metadata.messageType ≠ "RocketExploded" →
     m.metadata.messageType ≠ "RocketMissionChanged" →
      applyMessage r m = .error "unknown message type") := by
  refine ⟨fun r' h => applyMessage_cursor h, ?_⟩
  intro h1 h2 h3 h4 h5
  unfold applyMessage
  split <;> simp_all

/-- C7 witness: the theorem at a fresh rocket with message `sampleLaunch
5` (cursor facts) and with the unknown-kind message `sampleBogus 2`. -/
theorem cursor_update_precedes_dispatch_witness :
    (applyValid { channel := 7, status := "active" } (sampleLaunch 5)).lastMessageNumber
        = some 5 ∧
    applyMessage { channel := 7, status := "active" } (sampleBogus 2)
        = .error "unknown message type" :=
  ⟨((cursor_update_precedes_dispatch { channel := 7, status := "active" }
        (sampleLaunch 5)).1 _ rfl).1,
    (cursor_update_precedes_dispatch { channel := 7, status := "active" }
        (sampleBogus 2)).2 (by decide) (by decide) (by decide) (by decide)
        (by decide)⟩

/-- C8: applying `SpeedIncreased{by: X}` and then `SpeedDecreased{by:
X}` as the next two messages restores the speed to exactly its prior
value. -/
theorem speed_additivity (r : Rocket) (m1 m2 : Message) (X : Int)
    (h1t : m1.metadata.messageType = "RocketSpeedIncreased")
    (h1b : m1.message.by_ = some X)
    (h2t : m2.metadata.messageType = "RocketSpeedDecreased")
    (h2b : m2.message.by_ = some X) :
    ∃ r1 r2, applyMessage r m1 = .ok r1 ∧ applyMessage r1 m2 = .ok r2 ∧
      r2.speed = r.speed := by
  have hv1 : msgValid m1 = true := by unfold msgValid; rw [h1t]; simp [h1b]
  have hv2 : msgValid m2 = true := by unfold msgValid; rw [h2t]; simp [h2b]
  refine ⟨applyValid r m1, applyValid (applyValid r m1) m2,
    applyMessage_eq_ok r m1 hv1, applyMessage_eq_ok _ m2 hv2, ?_⟩
  simp only [applyValid, applyMessage, h1t, h1b, h2t, h2b]
  omega

/-- C8 witness: increase by 3000 then decrease by 3000 from a concretely
launched rocket. -/
theorem speed_additivity_witness :
    ∃ r1 r2, applyMessage rocketAfterOne (sampleInc 2 3000) = .ok r1 ∧
      applyMessage r1 (sampleDec 3 3000) = .ok r2 ∧
      r2.speed = rocketAfterOne.speed :=
  speed_additivity rocketAfterOne (sampleInc 2 3000) (sampleDec 3 3000) 3000
    rfl rfl rfl rfl

/-! ## Error-handling claims about one reconcile cycle (C5, C6) -/

/-- C5: when folding the contiguous prefix fails (an `applyMessage`
error), the reconcile cycle returns `ProcessMessageError` and leaves the
projection store exactly as it was — the upsert after the fold never
runs. -/
theorem failed_fold_not_persisted (s : ProcState) (ch : Nat)
    (rocket : Rocket) (k : Int) (e : String)
    (hc : rocket.lastMessageNumber = some k)
    (hf : foldContiguous rocket (FindAfterNumber s.log ch k)
        = .error (.err e)) :
    reconcile s ch rocket false false
      = (s, some (.err ProcessMessageError)) := by
  unfold reconcile
  rw [hc]
  simp [hf]

/-- C5 witness: the reconcile cycle from cursor 1 over a log holding an
unknown-kind message 2 fails and persists nothing. -/
theorem failed_fold_not_persisted_witness :
    reconcile stateWithBogusTwo 7 rocketAfterOne false false
      = (stateWithBogusTwo, some (.err ProcessMessageError)) :=
  failed_fold_not_persisted stateWithBogusTwo 7 rocketAfterOne 1
    ProcessMessageError rfl rfl

/-- C6 counterexample: the claim "a failed projection-store read makes
the ingest call return an error" is false — with the `FindByChannel`
failure injected, `Process` returns `nil` (success) and leaves the state
untouched, exactly as in the not-found case. -/
theorem read_failure_reports_success :
    (Process initState true false false (sampleInc 2 10)).2 = none ∧
    (Process initState true false false (sampleInc 2 10)).1 = initState :=
  ⟨rfl, rfl⟩

/-- C6 (amended): when the projection-store read fails in the
`sequenceNumber > 1` path, `Process` only logs the error and returns
success with no state change; the failure is treated like not-found and
is not propagated to the caller. -/
theorem read_failure_swallowed (s : ProcState) (fanFail upFail : Bool)
    (msg : Message) (h : msg.metadata.messageNumber ≠ 1) :
    Process s true fanFail upFail msg = (s, none) := by
  unfold Process
  rw [if_neg h]
  simp

/-- C6 witness: the amended theorem at the empty state and a concrete
message numbered 2. -/
theorem read_failure_swallowed_witness :
    Process initState true false false (sampleInc 2 10) = (initState, none) :=
  read_failure_swallowed initState false false (sampleInc 2 10) (by decide)

/-! ## Computation lemmas for whole ingest calls -/

theorem buildRocketState_singleton (ch : Nat) (m : Message)
    (h : msgValid m = true) :
    buildRocketState ch [m]
      = .ok (applyValid { channel := ch, status := "active" } m) := by
  unfold buildRocketState
  simp [applyMessage_eq_ok _ _ h]

theorem FindAfterNumber_eq_nil (log : List Message) (ch : Nat) (k : Int)
    (h : ∀ m ∈ log,
      ¬(m.metadata.channel = ch ∧ k < m.metadata.messageNumber)) :
    FindAfterNumber log ch k = [] := by
  unfold FindAfterNumber
  have hf : log.filter (fun m =>
      m.metadata.channel == ch && k < m.metadata.messageNumber) = [] := by
    rw [List.filter_eq_nil_iff]
    intro m hm
    have := h m hm
    simp only [Bool.and_eq_true, beq_iff_eq, decide_eq_true_eq]
    intro hc
    exact absurd ⟨hc.1, hc.2⟩ this
  rw [hf]
  rfl

theorem FindByChannel_singleton (r : Rocket) (ch : Nat) :
    FindByChannel [r] ch = if r.channel == ch then some r else none := by
  unfold FindByChannel
  cases h : r.channel == ch <;> simp [List.find?, h]

theorem Ingest_run (s : ProcState) (f1 f2 f3 : Bool) (msg : Message) :
    Ingest s false f1 f2 f3 msg
      = Process { s with log := s.log ++ [msg] } f1 f2 f3 msg := by
  unfold Ingest
  simp

theorem Process_fast_path (s : ProcState) (f1 f2 f3 : Bool) (msg : Message)
    (rocket : Rocket) (hn : msg.metadata.messageNumber = 1)
    (hb : buildRocketState msg.metadata.channel [msg] = .ok rocket) :
    Process s f1 f2 f3 msg = reconcile s msg.metadata.channel rocket f2 f3 := by
  unfold Process
  rw [if_pos hn, hb]

theorem Process_fetch_path (s : ProcState) (f2 f3 : Bool) (msg : Message)
    (rocket : Rocket) (hn : msg.metadata.messageNumber ≠ 1)
    (hr : FindByChannel s.store msg.metadata.channel = some rocket) :
    Process s false f2 f3 msg = reconcile s msg.metadata.channel rocket f2 f3 := by
  unfold Process
  rw [if_neg hn]
  simp [hr]

theorem Process_fetch_none (s : ProcState) (f2 f3 : Bool) (msg : Message)
    (hn : msg.metadata.messageNumber ≠ 1)
    (hr : FindByChannel s.store msg.metadata.channel = none) :
    Process s false f2 f3 msg = (s, none) := by
  unfold Process
  rw [if_neg hn]
  simp [hr]

theorem reconcile_run (s : ProcState) (ch : Nat) (rocket rocket' : Rocket)
    (k : Int) (hc : rocket.lastMessageNumber = some k)
    (hf : foldContiguous rocket (FindAfterNumber s.log ch k) = .ok rocket') :
    reconcile s ch rocket false false
      = ({ s with store := Upsert s.store rocket' }, none) := by
  unfold reconcile
  rw [hc]
  simp [hf]

/-! ## C4: projection creation on first message -/

/-- C4 counterexample: the claim "ingesting the first-ever message for a
channel creates and persists a projection regardless of its sequence
number" is false — the first-ever message of channel 7, numbered 2, is
logged, the call reports success, and no projection is persisted. -/
theorem first_message_not_seq_one_creates_nothing :
    (Ingest initState false false false false (sampleInc 2 10)).2 = none ∧
    (Ingest initState false false false false (sampleInc 2 10)).1.log
      = [sampleInc 2 10] ∧
    FindByChannel
      (Ingest initState false false false false (sampleInc 2 10)).1.store 7
      = none :=
  ⟨rfl, rfl, rfl⟩

/-- C4 (amended): ingesting the first-ever message for a channel creates
and persists a projection for it exactly when that message's sequence
number is 1 (and it applies successfully); a first-ever message with any
other sequence number is only logged and leaves the channel without a
projection. -/
theorem projection_creation_iff_seq_one (s : ProcState) (msg : Message) :
    (msg.metadata.messageNumber = 1 → msgValid msg = true →
      (∀ m ∈ s.log, m.metadata.channel ≠ msg.metadata.channel) →
      FindByChannel
          ((Ingest s false false false false msg).1).store
          msg.metadata.channel
        = some (applyValid
            { channel := msg.metadata.channel, status := "active" } msg)) ∧
    (msg.metadata.messageNumber ≠ 1 →
      FindByChannel s.store msg.metadata.channel = none →
      FindByChannel
          ((Ingest s false false false false msg).1).store
          msg.metadata.channel
        = none) := by
  constructor
  · intro hn hv hlog
    set r1 := applyValid { channel := msg.metadata.channel, status := "active" } msg
      with hr1
    have hcur : r1.lastMessageNumber = some 1 := by
      rw [hr1, (applyValid_cursor _ _ hv).1, hn]
    have hch : r1.channel = msg.metadata.channel := applyValid_channel _ _ hv
    have hfan : FindAfterNumber (s.log ++ [msg]) msg.metadata.channel 1 = [] := by
      apply FindAfterNumber_eq_nil
      intro m hm
      rcases List.mem_append.mp hm with hm | hm
      · intro hc
        exact absurd hc.1 (hlog m hm)
      · simp only [List.mem_singleton] at hm
        subst hm
        rw [hn]
        simp
    have hf : foldContiguous r1 (FindAfterNumber (s.log ++ [msg])
        msg.metadata.channel 1) = .ok r1 := by
      rw [hfan]
      rfl
    rw [Ingest_run,
      Process_fast_path _ _ _ _ _ _ hn (buildRocketState_singleton _ _ hv),
      reconcile_run _ _ _ _ 1 hcur hf]
    dsimp only
    rw [← hch]
    exact FindByChannel_Upsert_self s.store r1
  · intro hn hfind
    rw [Ingest_run, Process_fetch_none _ _ _ _ hn (by exact hfind)]
    exact hfind

/-- C4 witness: both directions at concrete inputs — message 1 on the
empty state creates the projection; message 2 on the empty state does
not. -/
theorem projection_creation_iff_seq_one_witness :
    FindByChannel
        ((Ingest initState false false false false (sampleLaunch 1)).1).store 7
      = some (applyValid { channel := 7, status := "active" } (sampleLaunch 1)) ∧
    FindByChannel
        ((Ingest initState false false false false (sampleBogus 2)).1).store 7
      = none :=
  ⟨(projection_creation_iff_seq_one initState (sampleLaunch 1)).1 rfl rfl
      (by intro m hm; simp [initState] at hm),
    (projection_creation_iff_seq_one initState (sampleBogus 2)).2 (by decide) rfl⟩

/-! ## C2: no-gap-skip -/

/-- C2: the contiguous-prefix fold stops at the first message whose
sequence number is not exactly `lastMessageNumber + 1` and applies
nothing further; in particular, ingesting message 1 and then message 3
(2 withheld) leaves exactly the projection obtained from ingesting
message 1 alone. -/
theorem no_gap_skip :
    (∀ (r : Rocket) (k : Int) (msg : Message) (rest : List Message),
        r.lastMessageNumber = some k →
        msg.metadata.messageNumber ≠ k + 1 →
        foldContiguous r (msg :: rest) = .ok r) ∧
    (∀ (ch : Nat) (m1 m3 : Message),
        m1.metadata.channel = ch → m1.metadata.messageNumber = 1 →
        msgValid m1 = true →
        m3.metadata.channel = ch → m3.metadata.messageNumber = 3 →
        FindByChannel (ingestAll initState [m1, m3]).store ch
          = FindByChannel (ingestAll initState [m1]).store ch) := by
  constructor
  · intro r k msg rest hc hne
    unfold foldContiguous
    rw [hc]
    simp [hne]
  · intro ch m1 m3 hch1 hn1 hv1 hch3 hn3
    set r1 := applyValid { channel := m1.metadata.channel, status := "active" } m1
      with hr1
    have hcur : r1.lastMessageNumber = some 1 := by
      rw [hr1, (applyValid_cursor _ _ hv1).1, hn1]
    have hchr : r1.channel = m1.metadata.channel := applyValid_channel _ _ hv1
    have hfan1 : FindAfterNumber (initState.log ++ [m1]) m1.metadata.channel 1
        = [] := by
      apply FindAfterNumber_eq_nil
      intro m hm
      simp only [initState, List.nil_append, List.mem_singleton] at hm
      subst hm
      rw [hn1]
      simp
    have hf1 : foldContiguous r1 (FindAfterNumber (initState.log ++ [m1])
        m1.metadata.channel 1) = .ok r1 := by
      rw [hfan1]
      rfl
    have hs1 : Ingest initState false false false false m1
        = (⟨[m1], [r1]⟩, none) := by
      rw [Ingest_run,
        Process_fast_path _ _ _ _ _ _ hn1 (buildRocketState_singleton _ _ hv1),
        reconcile_run _ _ _ _ 1 hcur hf1]
      dsimp only [initState]
      rw [Prod.mk.injEq]
      constructor
      · rw [ProcState.mk.injEq]
        exact ⟨List.nil_append [m1], rfl⟩
      · rfl
    have hfindr1 : FindByChannel (⟨[m1, m3], [r1]⟩ : ProcState).store
        m3.metadata.channel = some r1 := by
      show FindByChannel [r1] m3.metadata.channel = some r1
      rw [FindByChannel_singleton, if_pos (by rw [hchr, hch1, hch3]; simp)]
    have hfan3 : FindAfterNumber (⟨[m1, m3], [r1]⟩ : ProcState).log
        m3.metadata.channel 1 = [m3] := by
      show FindAfterNumber [m1, m3] m3.metadata.channel 1 = [m3]
      unfold FindAfterNumber
      have hfil : [m1, m3].filter (fun m =>
          m.metadata.channel == m3.metadata.channel
            && decide (1 < m.metadata.messageNumber)) = [m3] := by
        simp only [List.filter_cons, List.filter_nil, hn1, hn3]
        rw [hch1, hch3]
        simp
      rw [hfil]
      simp
    have hf3 : foldContiguous r1 (FindAfterNumber
        (⟨[m1, m3], [r1]⟩ : ProcState).log m3.metadata.channel 1) = .ok r1 := by
      rw [hfan3]
      unfold foldContiguous
      rw [hcur]
      dsimp only
      rw [if_neg (by rw [hn3]; decide)]
    have hs2 : Ingest ⟨[m1], [r1]⟩ false false false false m3
        = (⟨[m1, m3], [r1]⟩, none) := by
      rw [Ingest_run]
      show Process ⟨[m1, m3], [r1]⟩ false false false m3
        = (⟨[m1, m3], [r1]⟩, none)
      rw [Process_fetch_path _ _ _ _ _ (by rw [hn3]; decide) hfindr1,
        reconcile_run _ _ _ _ 1 hcur hf3]
      rw [Prod.mk.injEq]
      refine ⟨?_, rfl⟩
      rw [ProcState.mk.injEq]
      refine ⟨rfl, ?_⟩
      unfold Upsert
      simp
    show FindByChannel (ingestAll initState [m1, m3]).store ch
        = FindByChannel (ingestAll initState [m1]).store ch
    unfold ingestAll
    simp only [List.foldl_cons, List.foldl_nil, hs1, hs2]

/-- C2 witness: the stop rule at a concrete gap, via the end-to-end
scenario with concrete messages 1 and 3. -/
theorem no_gap_skip_witness :
    FindByChannel (ingestAll initState [sampleLaunch 1, sampleInc 3 100]).store 7
      = FindByChannel (ingestAll initState [sampleLaunch 1]).store 7 :=
  no_gap_skip.2 7 (sampleLaunch 1) (sampleInc 3 100) rfl rfl rfl rfl rfl

/-! ## C9: no double-apply of duplicate sequence numbers -/

/-- The sequence of messages the `Process` loop actually applies from a
cursor value `lastNum`: the longest prefix whose numbers are exactly
`lastNum + 1, lastNum + 2, …`. -/
def appliedPrefix (lastNum : Int) : List Message → List Message
  | [] => []
  | msg :: rest =>
    if msg.metadata.messageNumber = lastNum + 1 then
      msg :: appliedPrefix msg.metadata.messageNumber rest
    else []

/-- Applying a list of messages in order, stopping at the first error. -/
def applyList (r : Rocket) : List Message → Except String Rocket
  | [] => .ok r
  | msg :: rest =>
    match applyMessage r msg with
    | .error e => .error e
    | .ok r' => applyList r' rest

theorem appliedPrefix_gt (L : List Message) : ∀ (k : Int),
    ∀ m ∈ appliedPrefix k L, k < m.metadata.messageNumber := by
  induction L with
  | nil =>
      intro k m hm
      simp [appliedPrefix] at hm
  | cons msg rest ih =>
      intro k m hm
      unfold appliedPrefix at hm
      split at hm
      · rename_i hnum
        rcases List.mem_cons.mp hm with rfl | hm
        · omega
        · have := ih msg.metadata.messageNumber m hm
          omega
      · simp at hm

theorem appliedPrefix_pairwise (L : List Message) : ∀ (k : Int),
    List.Pairwise
      (fun a b => a.metadata.messageNumber < b.metadata.messageNumber)
      (appliedPrefix k L) := by
  induction L with
  | nil =>
      intro k
      simp [appliedPrefix]
  | cons msg rest ih =>
      intro k
      unfold appliedPrefix
      split
      · rw [List.pairwise_cons]
        exact ⟨fun b hb => appliedPrefix_gt rest _ b hb, ih _⟩
      · exact List.Pairwise.nil

theorem FindAfterNumber_gt (log : List Message) (ch : Nat) (n : Int) :
    ∀ m ∈ FindAfterNumber log ch n, n < m.metadata.messageNumber := by
  intro m hm
  unfold FindAfterNumber at hm
  have hm' := (List.perm_insertionSort msgLe _).mem_iff.mp hm
  have hp := List.of_mem_filter hm'
  simp only [Bool.and_eq_true, decide_eq_true_eq] at hp
  exact hp.2

theorem foldContiguous_applyList (L : List Message) :
    ∀ (r : Rocket) (k : Int) (r' : Rocket),
    r.lastMessageNumber = some k → foldContiguous r L = .ok r' →
    applyList r (appliedPrefix k L) = .ok r' := by
  induction L with
  | nil =>
      intro r k r' _ h
      unfold foldContiguous at h
      injection h with h
      subst h
      rfl
  | cons msg rest ih =>
      intro r k r' hc h
      unfold foldContiguous at h
      rw [hc] at h
      dsimp only at h
      unfold appliedPrefix
      by_cases hnum : msg.metadata.messageNumber = k + 1
      · rw [if_pos hnum] at h ⊢
        cases happ : applyMessage r msg with
        | error e =>
            rw [happ] at h
            exact Except.noConfusion h
        | ok r1 =>
            rw [happ] at h
            unfold applyList
            rw [happ]
            exact ih r1 msg.metadata.messageNumber r'
              (applyMessage_cursor happ).1 h
      · rw [if_neg hnum] at h ⊢
        injection h with h
        subst h
        rfl

/-- C9: duplicates are never double-applied.  From a cursor at `k`, the
messages the fold applies (`appliedPrefix`) have strictly increasing —
hence pairwise distinct — sequence numbers, all strictly greater than
`k`; `FindAfterNumber` returns only messages numbered strictly above the
cursor, so later passes cannot re-apply an already applied number; and a
successful fold is exactly the in-order application of that duplicate-free
prefix. -/
theorem no_double_apply (r : Rocket) (k : Int) (L : List Message)
    (hc : r.lastMessageNumber = some k) :
    List.Pairwise
      (fun a b => a.metadata.messageNumber < b.metadata.messageNumber)
      (appliedPrefix k L) ∧
    (∀ m ∈ appliedPrefix k L, k < m.metadata.messageNumber) ∧
    (∀ (log : List Message) (ch : Nat),
      ∀ m ∈ FindAfterNumber log ch k, k < m.metadata.messageNumber) ∧
    (∀ r', foldContiguous r L = .ok r' →
      applyList r (appliedPrefix k L) = .ok r') :=
  ⟨appliedPrefix_pairwise L k, appliedPrefix_gt L k,
    fun log ch => FindAfterNumber_gt log ch k,
    fun r' h => foldContiguous_applyList L r k r' hc h⟩

/-- C9 witness: a log slice holding the same sequence number 2 twice —
only the first copy is applied; the fold's output is the application of
that single-copy prefix. -/
theorem no_double_apply_witness :
    List.Pairwise
      (fun a b => a.metadata.messageNumber < b.metadata.messageNumber)
      (appliedPrefix 1 [sampleInc 2 5, sampleInc 2 5, sampleInc 3 7]) ∧
    (∀ m ∈ appliedPrefix 1 [sampleInc 2 5, sampleInc 2 5, sampleInc 3 7],
      1 < m.metadata.messageNumber) :=
  ⟨(no_double_apply rocketAfterOne 1
      [sampleInc 2 5, sampleInc 2 5, sampleInc 3 7] rfl).1,
    (no_double_apply rocketAfterOne 1
      [sampleInc 2 5, sampleInc 2 5, sampleInc 3 7] rfl).2.1⟩

/-! ## C10: the cursor dereference never faults -/

/-- Every persisted projection carries a non-`nil` cursor. -/
def StoreInvariant (s : ProcState) : Prop :=
  ∀ r ∈ s.store, r.lastMessageNumber.isSome = true

theorem foldContiguous_isSome {L : List Message} :
    ∀ {r r' : Rocket}, r.lastMessageNumber.isSome = true →
    foldContiguous r L = .ok r' → r'.lastMessageNumber.isSome = true := by
  induction L with
  | nil =>
      intro r r' hr h
      injection h with h
      subst h
      exact hr
  | cons msg rest ih =>
      intro r r' hr h
      obtain ⟨k, hk⟩ := Option.isSome_iff_exists.mp hr
      unfold foldContiguous at h
      rw [hk] at h
      dsimp only at h
      split at h
      · cases happ : applyMessage r msg with
        | error e =>
            rw [happ] at h
            exact Except.noConfusion h
        | ok r1 =>
            rw [happ] at h
            exact ih (by rw [(applyMessage_cursor happ).1]; rfl) h
      · injection h with h
        subst h
        exact hr

theorem foldContiguous_no_panic {L : List Message} :
    ∀ {r : Rocket}, r.lastMessageNumber.isSome = true →
    foldContiguous r L ≠ .error .nilPanic := by
  induction L with
  | nil =>
      intro r _ h
      exact Except.noConfusion h
  | cons msg rest ih =>
      intro r hr h
      obtain ⟨k, hk⟩ := Option.isSome_iff_exists.mp hr
      unfold foldContiguous at h
      rw [hk] at h
      dsimp only at h
      split at h
      · cases happ : applyMessage r msg with
        | error e =>
            rw [happ] at h
            injection h with h
            exact GoErr.noConfusion h
        | ok r1 =>
            rw [happ] at h
            exact ih (by rw [(applyMessage_cursor happ).1]; rfl) h
      · exact Except.noConfusion h

theorem reconcile_invariant (s : ProcState) (ch : Nat) (rocket : Rocket)
    (f2 f3 : Bool) (hr : rocket.lastMessageNumber.isSome = true)
    (hs : StoreInvariant s) :
    StoreInvariant (reconcile s ch rocket f2 f3).1 ∧
    (reconcile s ch rocket f2 f3).2 ≠ some GoErr.nilPanic := by
  obtain ⟨k, hk⟩ := Option.isSome_iff_exists.mp hr
  unfold reconcile
  rw [hk]
  dsimp only
  cases f2 with
  | true => exact ⟨hs, by simp⟩
  | false =>
      rw [if_neg (by simp)]
      cases hfold : foldContiguous rocket (FindAfterNumber s.log ch k) with
      | error e =>
          cases e with
          | nilPanic => exact absurd hfold (foldContiguous_no_panic hr)
          | err msg => exact ⟨hs, by simp⟩
      | ok rocket' =>
          dsimp only
          cases f3 with
          | true => exact ⟨hs, by simp⟩
          | false =>
              rw [if_neg (by simp)]
              refine ⟨?_, by simp⟩
              intro x hx
              rcases mem_Upsert hx with hx | rfl
              · exact hs x hx
              · exact foldContiguous_isSome hr hfold

theorem buildRocketState_singleton_isSome {ch : Nat} {m : Message} {r : Rocket}
    (h : buildRocketState ch [m] = .ok r) :
    r.lastMessageNumber.isSome = true := by
  unfold buildRocketState at h
  simp only [List.foldlM_cons, List.foldlM_nil] at h
  cases happ : applyMessage { channel := ch, status := "active" } m with
  | error e =>
      rw [happ] at h
      exact Except.noConfusion h
  | ok r1 =>
      rw [happ] at h
      injection h with h
      subst h
      rw [(applyMessage_cursor happ).1]
      rfl

theorem Process_invariant (s : ProcState) (f1 f2 f3 : Bool) (msg : Message)
    (hs : StoreInvariant s) :
    StoreInvariant (Process s f1 f2 f3 msg).1 ∧
    (Process s f1 f2 f3 msg).2 ≠ some GoErr.nilPanic := by
  unfold Process
  split
  · cases hb : buildRocketState msg.metadata.channel [msg] with
    | error e => exact ⟨hs, by simp⟩
    | ok rocket =>
        exact reconcile_invariant s msg.metadata.channel rocket f2 f3
          (buildRocketState_singleton_isSome hb) hs
  · cases f1 with
    | true => exact ⟨hs, by simp⟩
    | false =>
        rw [if_neg (by simp)]
        cases hfind : FindByChannel s.store msg.metadata.channel with
        | none =>
            dsimp only
            exact ⟨hs, by simp⟩
        | some rocket =>
            dsimp only
            exact reconcile_invariant s msg.metadata.channel rocket f2 f3
              (hs rocket (FindByChannel_mem hfind)) hs

theorem Ingest_invariant (s : ProcState) (f0 f1 f2 f3 : Bool) (msg : Message)
    (hs : StoreInvariant s) :
    StoreInvariant (Ingest s f0 f1 f2 f3 msg).1 := by
  unfold Ingest
  cases f0 with
  | true => exact hs
  | false =>
      rw [if_neg (by simp)]
      exact (Process_invariant { s with log := s.log ++ [msg] }
        f1 f2 f3 msg hs).1

/-- The store states produced by any sequence of `Ingest` calls (with
arbitrary injected I/O failures) starting from the empty state. -/
inductive Reachable : ProcState → Prop where
  | init : Reachable initState
  | step (s : ProcState) (f0 f1 f2 f3 : Bool) (msg : Message) :
      Reachable s → Reachable (Ingest s f0 f1 f2 f3 msg).1

/-- C10: in every reachable state, every persisted projection has a
non-`nil` `lastMessageNumber` (the fast path applies at least the
triggering message, which stamps the cursor before any dispatch), so no
`Process` call on a reachable state ever dereferences a `nil` cursor —
the panic outcome is unreachable. -/
theorem persisted_cursor_never_nil (s : ProcState) (hs : Reachable s) :
    StoreInvariant s ∧
    ∀ (f1 f2 f3 : Bool) (msg : Message),
      (Process s f1 f2 f3 msg).2 ≠ some GoErr.nilPanic := by
  have hinv : StoreInvariant s := by
    induction hs with
    | init =>
        intro r hr
        simp [initState] at hr
    | step s f0 f1 f2 f3 msg hsr ih => exact Ingest_invariant s f0 f1 f2 f3 msg ih
  exact ⟨hinv, fun f1 f2 f3 msg => (Process_invariant s f1 f2 f3 msg hinv).2⟩

/-- C10 witness: the theorem at the (reachable) empty state and a
concrete out-of-order message. -/
theorem persisted_cursor_never_nil_witness :
    (Process initState false false false (sampleInc 2 10)).2
      ≠ some GoErr.nilPanic :=
  (persisted_cursor_never_nil initState Reachable.init).2 false false false
    (sampleInc 2 10)

/-! ## C1: order independence

The development works over a canonical message list `msgs` whose
sequence numbers are exactly `1, …, N` in ascending order, all on one
channel.  The invariant maintained over an arbitrary arrival permutation
is: the log holds exactly the arrived messages, and the store holds the
fold of the longest contiguous prefix `1..k` of arrived numbers. -/

section OrderIndependence

/-- The sequence numbers `1, …, N`. -/
def seqNums (N : ℕ) : List Int :=
  (List.range N).map (fun i : ℕ => (i : Int) + 1)

/-- Total fold of `applyValid` over a message list (agrees with the
`Except`-valued folds on valid messages). -/
def foldValid (r : Rocket) (L : List Message) : Rocket := L.foldl applyValid r

/-- The fresh projection `buildRocketState` starts from. -/
def initialRocket (ch : Nat) : Rocket := { channel := ch, status := "active" }

/-- Whether some message with sequence number `x` occurs in `p`. -/
def arrivedIn (p : List Message) (x : Int) : Bool :=
  p.any (fun m => m.metadata.messageNumber == x)

/-- Strict comparison of messages by sequence number. -/
def msgLt (a b : Message) : Prop :=
  a.metadata.messageNumber < b.metadata.messageNumber

instance : IsAntisymm Message msgLt :=
  ⟨fun _ _ h1 h2 => absurd (lt_trans h1 h2) (lt_irrefl _)⟩

variable (msgs : List Message) (N : ℕ) (ch : Nat)

/-- The mid-run invariant on the projection store: nothing is stored
until number 1 has arrived; afterwards exactly the fold of the longest
arrived contiguous prefix `1..k` is stored. -/
def StoreInv (A : Int → Bool) (s : ProcState) : Prop :=
  (A 1 = false → s.store = []) ∧
  (A 1 = true → ∃ k : ℕ, 1 ≤ k ∧ k ≤ N ∧
    (∀ i : ℕ, 1 ≤ i → i ≤ k → A i = true) ∧
    (k = N ∨ A ((k : Int) + 1) = false) ∧
    s.store = [foldValid (initialRocket ch) (msgs.take k)])

theorem msgs_length
    (hnum : msgs.map (fun m => m.metadata.messageNumber) = seqNums N) :
    msgs.length = N := by
  have h := congrArg List.length hnum
  simpa [seqNums] using h

theorem msgs_num_getElem
    (hnum : msgs.map (fun m => m.metadata.messageNumber) = seqNums N)
    (i : ℕ) (hi : i < msgs.length) :
    (msgs.get ⟨i, hi⟩).metadata.messageNumber = (i : Int) + 1 := by
  have hiN : i < N := by rw [← msgs_length msgs N hnum]; exact hi
  have h := congrArg (fun l => l[i]?) hnum
  simp only [List.getElem?_map, seqNums] at h
  rw [List.getElem?_eq_getElem hi] at h
  rw [List.getElem?_eq_getElem (by simpa using hiN)] at h
  simp only [List.getElem_range, Option.map_some'] at h
  simpa using h

theorem msgs_pairwise_lt
    (hnum : msgs.map (fun m => m.metadata.messageNumber) = seqNums N) :
    msgs.Pairwise msgLt := by
  have h1 : (seqNums N).Pairwise (· < ·) := by
    unfold seqNums
    rw [List.pairwise_map]
    refine (List.pairwise_lt_range N).imp ?_
    intro a b h
    show (a : Int) + 1 < (b : Int) + 1
    omega
  rw [← hnum] at h1
  have h2 : msgs.Pairwise
      (fun a b => a.metadata.messageNumber < b.metadata.messageNumber) :=
    List.pairwise_map.mp h1
  exact h2

theorem msgs_nodup_num
    (hnum : msgs.map (fun m => m.metadata.messageNumber) = seqNums N) :
    (msgs.map (fun m => m.metadata.messageNumber)).Nodup := by
  rw [hnum]
  unfold seqNums
  have hinj : Function.Injective (fun i : ℕ => (i : Int) + 1) := by
    intro a b h
    have h' : (a : Int) + 1 = (b : Int) + 1 := h
    omega
  exact List.Nodup.map hinj (List.nodup_range N)

theorem msgs_num_mem_bounds
    (hnum : msgs.map (fun m => m.metadata.messageNumber) = seqNums N)
    (m : Message) (hm : m ∈ msgs) :
    1 ≤ m.metadata.messageNumber ∧ m.metadata.messageNumber ≤ (N : Int) := by
  have hmem : m.metadata.messageNumber ∈ seqNums N := by
    rw [← hnum]
    exact List.mem_map_of_mem _ hm
  unfold seqNums at hmem
  rcases List.mem_map.mp hmem with ⟨i, hi, hival⟩
  have := List.mem_range.mp hi
  omega

theorem exists_msg_with_num
    (hnum : msgs.map (fun m => m.metadata.messageNumber) = seqNums N)
    (i : ℕ) (h1 : 1 ≤ i) (hN : i ≤ N) :
    ∃ m ∈ msgs, m.metadata.messageNumber = (i : Int) := by
  have hmem : ((i : Int)) ∈ seqNums N := by
    unfold seqNums
    rw [List.mem_map]
    exact ⟨i - 1, List.mem_range.mpr (by omega), by omega⟩
  rw [← hnum] at hmem
  rcases List.mem_map.mp hmem with ⟨m, hm, hval⟩
  exact ⟨m, hm, hval⟩

theorem msg_eq_getElem_of_num
    (hnum : msgs.map (fun m => m.metadata.messageNumber) = seqNums N)
    (m : Message) (hm : m ∈ msgs) (i : ℕ) (hi : i < msgs.length)
    (hmn : m.metadata.messageNumber = (i : Int) + 1) :
    m = msgs.get ⟨i, hi⟩ := by
  rcases List.mem_iff_get.mp hm with ⟨⟨j, hj⟩, hjm⟩
  have hjn := msgs_num_getElem msgs N hnum j hj
  rw [hjm] at hjn
  have hji : j = i := by omega
  subst hji
  exact hjm.symm

theorem mem_take_num_le
    (hnum : msgs.map (fun m => m.metadata.messageNumber) = seqNums N)
    (k : ℕ) (m : Message) (hm : m ∈ msgs.take k) :
    m.metadata.messageNumber ≤ (k : Int) := by
  rcases List.mem_iff_get.mp hm with ⟨⟨i, hi⟩, him⟩
  have hlen : i < min k msgs.length := by simpa using hi
  have hi' : i < msgs.length := lt_of_lt_of_le hlen (min_le_right _ _)
  have hik : i < k := lt_of_lt_of_le hlen (min_le_left _ _)
  have hget : (msgs.take k).get ⟨i, hi⟩ = msgs.get ⟨i, hi'⟩ := by
    simp [List.getElem_take]
  rw [hget] at him
  rw [← him, msgs_num_getElem msgs N hnum i hi']
  omega

theorem mem_drop_num_gt
    (hnum : msgs.map (fun m => m.metadata.messageNumber) = seqNums N)
    (k : ℕ) (m : Message) (hm : m ∈ msgs.drop k) :
    (k : Int) < m.metadata.messageNumber := by
  rcases List.mem_iff_get.mp hm with ⟨⟨i, hi⟩, him⟩
  have hi' : k + i < msgs.length := by
    have := hi
    simp only [List.length_drop] at this
    omega
  have hget : (msgs.drop k).get ⟨i, hi⟩ = msgs.get ⟨k + i, hi'⟩ := by
    simp [List.getElem_drop]
  rw [hget] at him
  rw [← him, msgs_num_getElem msgs N hnum (k + i) hi']
  omega

theorem foldValid_append (r : Rocket) (L1 L2 : List Message) :
    foldValid r (L1 ++ L2) = foldValid (foldValid r L1) L2 := by
  unfold foldValid
  rw [List.foldl_append]

theorem applyValid_channel_any (r : Rocket) (m : Message) :
    (applyValid r m).channel = r.channel := by
  unfold applyValid
  cases h : applyMessage r m with
  | ok r' => exact applyMessage_channel h
  | error e => rfl

theorem foldValid_channel_any (L : List Message) : ∀ (r : Rocket),
    (foldValid r L).channel = r.channel := by
  induction L with
  | nil => intro r; rfl
  | cons m rest ih =>
      intro r
      show (foldValid (applyValid r m) rest).channel = r.channel
      rw [ih, applyValid_channel_any]

theorem foldValid_take_succ (r : Rocket) (k : ℕ) (hk : k < msgs.length) :
    foldValid r (msgs.take (k + 1))
      = applyValid (foldValid r (msgs.take k)) (msgs.get ⟨k, hk⟩) := by
  rw [← List.take_concat_get' msgs k hk, foldValid_append]
  rfl

theorem foldValid_cursor
    (hnum : msgs.map (fun m => m.metadata.messageNumber) = seqNums N)
    (hvalid : ∀ m ∈ msgs, msgValid m = true)
    (k : ℕ) (hk1 : 1 ≤ k) (hkN : k ≤ N) :
    (foldValid (initialRocket ch) (msgs.take k)).lastMessageNumber
      = some (k : Int) := by
  cases k with
  | zero => omega
  | succ k' =>
      have hk' : k' < msgs.length := by
        rw [msgs_length msgs N hnum]
        omega
      rw [foldValid_take_succ msgs _ k' hk']
      rw [(applyValid_cursor _ _ (hvalid _ (List.get_mem msgs k' hk'))).1]
      rw [msgs_num_getElem msgs N hnum k' hk']
      congr 1

theorem insertionSort_eq_of_perm (X q : List Message) (hperm : X.Perm q)
    (hq : q.Pairwise msgLt) :
    List.insertionSort msgLe X = q := by
  have hps : (List.insertionSort msgLe X).Perm q :=
    (List.perm_insertionSort msgLe X).trans hperm
  have hnodupq : (q.map (fun m => m.metadata.messageNumber)).Nodup := by
    have hne : q.Pairwise
        (fun a b => a.metadata.messageNumber ≠ b.metadata.messageNumber) :=
      hq.imp (fun h => ne_of_lt h)
    exact List.pairwise_map.mpr hne
  have hnodups : ((List.insertionSort msgLe X).map
      (fun m => m.metadata.messageNumber)).Nodup :=
    ((hps.map _).nodup_iff).mpr hnodupq
  have hle : (List.insertionSort msgLe X).Pairwise msgLe :=
    List.sorted_insertionSort msgLe X
  have hne : (List.insertionSort msgLe X).Pairwise
      (fun a b => a.metadata.messageNumber ≠ b.metadata.messageNumber) :=
    List.pairwise_map.mp hnodups
  have hlt : (List.insertionSort msgLe X).Pairwise msgLt :=
    (hle.and hne).imp (fun h => lt_of_le_of_ne h.1 h.2)
  exact List.eq_of_perm_of_sorted hps hlt hq

theorem FindAfterNumber_canonical
    (hnum : msgs.map (fun m => m.metadata.messageNumber) = seqNums N)
    (hch : ∀ m ∈ msgs, m.metadata.channel = ch)
    (A : Int → Bool) (log : List Message) (k : ℕ) (_hk : k ≤ N)
    (hlog : log.Perm (msgs.filter (fun m => A m.metadata.messageNumber))) :
    FindAfterNumber log ch k
      = (msgs.drop k).filter (fun m => A m.metadata.messageNumber) := by
  unfold FindAfterNumber
  apply insertionSort_eq_of_perm
  · have h1 := hlog.filter (fun m =>
      m.metadata.channel == ch && decide ((k : Int) < m.metadata.messageNumber))
    have h2 : (msgs.filter (fun m => A m.metadata.messageNumber)).filter
        (fun m => m.metadata.channel == ch
          && decide ((k : Int) < m.metadata.messageNumber))
        = (msgs.drop k).filter (fun m => A m.metadata.messageNumber) := by
      rw [List.filter_filter]
      have hcongr1 : msgs.filter (fun a =>
          (a.metadata.channel == ch
            && decide ((k : Int) < a.metadata.messageNumber))
          && A a.metadata.messageNumber)
          = msgs.filter (fun a =>
            decide ((k : Int) < a.metadata.messageNumber)
            && A a.metadata.messageNumber) := by
        apply List.filter_congr
        intro a ha
        have hcha : a.metadata.channel = ch := hch a ha
        simp [hcha]
      rw [hcongr1]
      have hsplit : msgs.filter (fun a =>
          decide ((k : Int) < a.metadata.messageNumber)
          && A a.metadata.messageNumber)
          = (msgs.take k).filter (fun a =>
              decide ((k : Int) < a.metadata.messageNumber)
              && A a.metadata.messageNumber)
            ++ (msgs.drop k).filter (fun a =>
              decide ((k : Int) < a.metadata.messageNumber)
              && A a.metadata.messageNumber) := by
        conv_lhs => rw [← List.take_append_drop k msgs]
        rw [List.filter_append]
      rw [hsplit]
      have htake : (msgs.take k).filter (fun a =>
          decide ((k : Int) < a.metadata.messageNumber)
          && A a.metadata.messageNumber) = [] := by
        rw [List.filter_eq_nil_iff]
        intro a ha
        have := mem_take_num_le msgs N hnum k a ha
        simp only [Bool.and_eq_true, decide_eq_true_eq, not_and]
        intro hlt
        omega
      have hdrop : (msgs.drop k).filter (fun a =>
          decide ((k : Int) < a.metadata.messageNumber)
          && A a.metadata.messageNumber)
          = (msgs.drop k).filter (fun a => A a.metadata.messageNumber) := by
        apply List.filter_congr
        intro a ha
        have := mem_drop_num_gt msgs N hnum k a ha
        simp [this]
      rw [htake, hdrop, List.nil_append]
    rw [h2] at h1
    exact h1
  · have hsub : ((msgs.drop k).filter
        (fun m => A m.metadata.messageNumber)).Sublist msgs :=
      (List.filter_sublist _).trans (List.drop_sublist k msgs)
    exact (msgs_pairwise_lt msgs N hnum).sublist hsub

theorem foldContiguous_stop (r : Rocket) (k : Int)
    (hc : r.lastMessageNumber = some k) (L : List Message)
    (hL : ∀ m ∈ L, m.metadata.messageNumber ≠ k + 1) :
    foldContiguous r L = .ok r := by
  cases L with
  | nil => rfl
  | cons m rest =>
      unfold foldContiguous
      rw [hc]
      dsimp only
      rw [if_neg (hL m (List.mem_cons_self m rest))]

theorem fold_avail
    (hnum : msgs.map (fun m => m.metadata.messageNumber) = seqNums N)
    (hvalid : ∀ m ∈ msgs, msgValid m = true) (A : Int → Bool) :
    ∀ (d k : ℕ), k + d = N → 1 ≤ k →
    ∃ k' : ℕ, k ≤ k' ∧ k' ≤ N ∧
      (∀ i : ℕ, k < i → i ≤ k' → A (i : Int) = true) ∧
      (k' = N ∨ A ((k' : Int) + 1) = false) ∧
      foldContiguous (foldValid (initialRocket ch) (msgs.take k))
          ((msgs.drop k).filter (fun m => A m.metadata.messageNumber))
        = .ok (foldValid (initialRocket ch) (msgs.take k')) := by
  intro d
  induction d with
  | zero =>
      intro k hkd hk1
      refine ⟨k, le_refl k, by omega,
        fun i h1 h2 => absurd (h1.trans_le h2) (lt_irrefl k),
        Or.inl (by omega), ?_⟩
      have hnil : msgs.drop k = [] :=
        List.drop_eq_nil_of_le (by rw [msgs_length msgs N hnum]; omega)
      rw [hnil]
      rfl
  | succ d ih =>
      intro k hkd hk1
      have hkN : k < N := by omega
      have hklen : k < msgs.length := by
        rw [msgs_length msgs N hnum]
        exact hkN
      have hdrop : msgs.drop k = msgs.get ⟨k, hklen⟩ :: msgs.drop (k + 1) := by
        rw [List.drop_eq_getElem_cons hklen]
        rw [List.get_eq_getElem]
      have hnumk : (msgs.get ⟨k, hklen⟩).metadata.messageNumber = (k : Int) + 1 :=
        msgs_num_getElem msgs N hnum k hklen
      cases hA1 : A ((k : Int) + 1) with
      | false =>
          refine ⟨k, le_refl k, le_of_lt hkN,
            fun i h1 h2 => absurd (h1.trans_le h2) (lt_irrefl k),
            Or.inr hA1, ?_⟩
          rw [hdrop, List.filter_cons]
          have hpm : A (msgs.get ⟨k, hklen⟩).metadata.messageNumber = false := by
            rw [hnumk]
            exact hA1
          simp only [hpm, Bool.false_eq_true, if_false]
          apply foldContiguous_stop _ (k : Int)
            (foldValid_cursor msgs N ch hnum hvalid k hk1 (le_of_lt hkN))
          intro m hm
          have hmem : m ∈ msgs.drop (k + 1) := List.mem_of_mem_filter hm
          have hgt := mem_drop_num_gt msgs N hnum (k + 1) m hmem
          push_cast at hgt
          omega
      | true =>
          obtain ⟨k', hk'1, hk'N, hk'A, hk'edge, hk'fold⟩ :=
            ih (k + 1) (by omega) (by omega)
          refine ⟨k', by omega, hk'N, ?_, hk'edge, ?_⟩
          · intro i h1 h2
            by_cases hik : i = k + 1
            · subst hik
              push_cast
              exact hA1
            · exact hk'A i (by omega) h2
          · rw [hdrop, List.filter_cons]
            have hpm : A (msgs.get ⟨k, hklen⟩).metadata.messageNumber = true := by
              rw [hnumk]
              exact hA1
            simp only [hpm, if_true]
            unfold foldContiguous
            rw [foldValid_cursor msgs N ch hnum hvalid k hk1 (le_of_lt hkN)]
            dsimp only
            rw [if_pos hnumk]
            rw [applyMessage_eq_ok _ _ (hvalid _ (List.get_mem msgs k hklen))]
            dsimp only
            rw [← foldValid_take_succ msgs _ k hklen]
            exact hk'fold

theorem filter_insert_perm (A : Int → Bool) (m : Message) :
    ∀ (L : List Message),
    (L.map (fun x => x.metadata.messageNumber)).Nodup → m ∈ L →
    A m.metadata.messageNumber = false →
    (L.filter (fun x => A x.metadata.messageNumber
        || (m.metadata.messageNumber == x.metadata.messageNumber))).Perm
      (L.filter (fun x => A x.metadata.messageNumber) ++ [m]) := by
  intro L
  induction L with
  | nil =>
      intro _ hm _
      simp at hm
  | cons hd tl ih =>
      intro hnodup hm hnew
      rw [List.map_cons, List.nodup_cons] at hnodup
      obtain ⟨hhd, htl⟩ := hnodup
      by_cases hmeq : m = hd
      · subst hmeq
        rw [List.filter_cons, List.filter_cons]
        simp only [hnew, Bool.false_or, beq_self_eq_true, if_true,
          Bool.false_eq_true, if_false]
        have htlcongr : tl.filter (fun x => A x.metadata.messageNumber
            || (m.metadata.messageNumber == x.metadata.messageNumber))
            = tl.filter (fun x => A x.metadata.messageNumber) := by
          apply List.filter_congr
          intro x hx
          have hxne : m.metadata.messageNumber ≠ x.metadata.messageNumber := by
            intro hcontra
            exact hhd (by rw [hcontra]; exact List.mem_map_of_mem _ hx)
          rw [beq_eq_false_iff_ne.mpr hxne, Bool.or_false]
        rw [htlcongr]
        exact (List.perm_append_singleton m _).symm
      · have hmtl : m ∈ tl := by
          rcases List.mem_cons.mp hm with h | h
          · exact absurd h hmeq
          · exact h
        have hhdne : m.metadata.messageNumber ≠ hd.metadata.messageNumber := by
          intro hcontra
          exact hhd (by rw [← hcontra]; exact List.mem_map_of_mem _ hmtl)
        rw [List.filter_cons, List.filter_cons,
          beq_eq_false_iff_ne.mpr hhdne, Bool.or_false]
        cases hAhd : A hd.metadata.messageNumber with
        | true =>
            simp only [if_true]
            rw [List.cons_append]
            exact (ih htl hmtl hnew).cons hd
        | false =>
            simp only [Bool.false_eq_true, if_false]
            exact ih htl hmtl hnew

theorem Process_log (s : ProcState) (f1 f2 f3 : Bool) (msg : Message) :
    (Process s f1 f2 f3 msg).1.log = s.log := by
  unfold Process reconcile
  repeat' split
  all_goals rfl

theorem Ingest_log (s : ProcState) (f1 f2 f3 : Bool) (msg : Message) :
    (Ingest s false f1 f2 f3 msg).1.log = s.log ++ [msg] := by
  rw [Ingest_run, Process_log]

theorem Upsert_singleton_same (r r' : Rocket) (h : r.channel = r'.channel) :
    Upsert [r] r' = [r'] := by
  unfold Upsert
  simp [h]

theorem step_lemma
    (hnum : msgs.map (fun m => m.metadata.messageNumber) = seqNums N)
    (hch : ∀ m ∈ msgs, m.metadata.channel = ch)
    (hvalid : ∀ m ∈ msgs, msgValid m = true)
    (A : Int → Bool) (s : ProcState)
    (hlog : s.log.Perm (msgs.filter (fun x => A x.metadata.messageNumber)))
    (hstore : StoreInv msgs N ch A s)
    (m : Message) (hm : m ∈ msgs)
    (hnew : A m.metadata.messageNumber = false) :
    (Ingest s false false false false m).1.log.Perm
      (msgs.filter (fun x => A x.metadata.messageNumber
        || (m.metadata.messageNumber == x.metadata.messageNumber))) ∧
    StoreInv msgs N ch
      (fun x => A x || (m.metadata.messageNumber == x))
      (Ingest s false false false false m).1 := by
  have hchm : m.metadata.channel = ch := hch m hm
  have hjb := msgs_num_mem_bounds msgs N hnum m hm
  have hlogperm : (s.log ++ [m]).Perm (msgs.filter (fun x =>
      A x.metadata.messageNumber
      || (m.metadata.messageNumber == x.metadata.messageNumber))) := by
    refine (hlog.append_right [m]).trans ?_
    exact (filter_insert_perm A m msgs (msgs_nodup_num msgs N hnum) hm hnew).symm
  have hlogIng : (Ingest s false false false false m).1.log = s.log ++ [m] :=
    Ingest_log s false false false m
  refine ⟨by rw [hlogIng]; exact hlogperm, ?_⟩
  by_cases hj1 : m.metadata.messageNumber = 1
  · -- fast path: the channel's first message
    have hA1 : A 1 = false := by rw [← hj1]; exact hnew
    have hstore0 : s.store = [] := hstore.1 hA1
    have hN1 : 1 ≤ N := by
      have h2 := hjb.2
      rw [hj1] at h2
      omega
    have h0len : 0 < msgs.length := by
      rw [msgs_length msgs N hnum]
      omega
    have hm0 : m = msgs.get ⟨0, h0len⟩ :=
      msg_eq_getElem_of_num msgs N hnum m hm 0 h0len (by rw [hj1]; norm_num)
    have hbuild : buildRocketState m.metadata.channel [m]
        = .ok (applyValid { channel := m.metadata.channel, status := "active" } m) :=
      buildRocketState_singleton _ _ (hvalid m hm)
    have hr1 : applyValid { channel := ch, status := "active" } m
        = foldValid (initialRocket ch) (msgs.take 1) := by
      rw [foldValid_take_succ msgs _ 0 h0len, ← hm0]
      rfl
    obtain ⟨k', hk'1, hk'N, hk'A, hk'edge, hk'fold⟩ :=
      fold_avail msgs N ch hnum hvalid
        (fun x => A x || (m.metadata.messageNumber == x)) (N - 1) 1
        (by omega) (le_refl 1)
    have hcanon : FindAfterNumber (s.log ++ [m]) ch (1 : Int)
        = (msgs.drop 1).filter (fun x => A x.metadata.messageNumber
            || (m.metadata.messageNumber == x.metadata.messageNumber)) := by
      have h := FindAfterNumber_canonical msgs N ch hnum hch
        (fun x => A x || (m.metadata.messageNumber == x)) (s.log ++ [m]) 1
        hN1 hlogperm
      simpa using h
    have hcur1 : (foldValid (initialRocket ch) (msgs.take 1)).lastMessageNumber
        = some (1 : Int) := by
      have h := foldValid_cursor msgs N ch hnum hvalid 1 (le_refl 1) hN1
      simpa using h
    have hfold : foldContiguous (foldValid (initialRocket ch) (msgs.take 1))
        (FindAfterNumber (s.log ++ [m]) ch (1 : Int))
        = .ok (foldValid (initialRocket ch) (msgs.take k')) := by
      rw [hcanon]
      simpa using hk'fold
    have hIng : Ingest s false false false false m
        = (⟨s.log ++ [m], [foldValid (initialRocket ch) (msgs.take k')]⟩, none) := by
      rw [Ingest_run]
      rw [Process_fast_path _ _ _ _ _ _ hj1 hbuild]
      rw [hchm, hr1]
      rw [reconcile_run _ _ _ _ 1 hcur1 hfold]
      dsimp only
      rw [hstore0]
      rfl
    rw [hIng]
    constructor
    · intro hfalse
      exfalso
      have hfalse' : (A 1 || (m.metadata.messageNumber == (1 : Int))) = false :=
        hfalse
      rw [hj1] at hfalse'
      simp at hfalse'
    · intro _
      refine ⟨k', by omega, hk'N, ?_, hk'edge, rfl⟩
      intro i hi1 hik'
      by_cases hieq : i = 1
      · subst hieq
        show (A 1 || (m.metadata.messageNumber == ((1 : ℕ) : Int))) = true
        rw [hj1]
        simp
      · exact hk'A i (by omega) hik'
  · -- fetch path
    by_cases hA1 : A 1 = true
    · obtain ⟨k, hk1, hkN, hAk, hedge, hstoreEq⟩ := hstore.2 hA1
      obtain ⟨k', hk'1, hk'N, hk'A, hk'edge, hk'fold⟩ :=
        fold_avail msgs N ch hnum hvalid
          (fun x => A x || (m.metadata.messageNumber == x)) (N - k) k
          (by omega) hk1
      have hrch : (foldValid (initialRocket ch) (msgs.take k)).channel = ch := by
        rw [foldValid_channel_any]
        rfl
      have hfind : FindByChannel
          (({ s with log := s.log ++ [m] } : ProcState)).store
          m.metadata.channel
          = some (foldValid (initialRocket ch) (msgs.take k)) := by
        show FindByChannel s.store m.metadata.channel = some _
        rw [hstoreEq, FindByChannel_singleton,
          if_pos (by rw [hrch, hchm]; simp)]
      have hcanon : FindAfterNumber (s.log ++ [m]) ch ((k : ℕ) : Int)
          = (msgs.drop k).filter (fun x => A x.metadata.messageNumber
              || (m.metadata.messageNumber == x.metadata.messageNumber)) := by
        have h := FindAfterNumber_canonical msgs N ch hnum hch
          (fun x => A x || (m.metadata.messageNumber == x)) (s.log ++ [m]) k
          hkN hlogperm
        simpa using h
      have hcur : (foldValid (initialRocket ch) (msgs.take k)).lastMessageNumber
          = some ((k : ℕ) : Int) :=
        foldValid_cursor msgs N ch hnum hvalid k hk1 hkN
      have hfold : foldContiguous (foldValid (initialRocket ch) (msgs.take k))
          (FindAfterNumber (s.log ++ [m]) ch ((k : ℕ) : Int))
          = .ok (foldValid (initialRocket ch) (msgs.take k')) := by
        rw [hcanon]
        simpa using hk'fold
      have hIng : Ingest s false false false false m
          = (⟨s.log ++ [m], [foldValid (initialRocket ch) (msgs.take k')]⟩,
              none) := by
        rw [Ingest_run]
        rw [Process_fetch_path _ _ _ _ _ hj1 hfind]
        rw [hchm]
        rw [reconcile_run _ _ _ _ ((k : ℕ) : Int) hcur hfold]
        dsimp only
        rw [hstoreEq,
          Upsert_singleton_same _ _
            (by rw [foldValid_channel_any, foldValid_channel_any])]
      rw [hIng]
      constructor
      · intro hfalse
        exfalso
        have hfalse' : (A 1 || (m.metadata.messageNumber == (1 : Int))) = false :=
          hfalse
        rw [hA1] at hfalse'
        simp at hfalse'
      · intro _
        refine ⟨k', by omega, hk'N, ?_, hk'edge, rfl⟩
        intro i hi1 hik'
        by_cases hik : i ≤ k
        · show (A (i : Int) || (m.metadata.messageNumber == (i : Int))) = true
          rw [hAk i hi1 hik]
          simp
        · exact hk'A i (by omega) hik'
    · have hA1f : A 1 = false := Bool.eq_false_iff.mpr hA1
      have hstore0 : s.store = [] := hstore.1 hA1f
      have hIng : Ingest s false false false false m
          = (⟨s.log ++ [m], s.store⟩, none) := by
        rw [Ingest_run]
        rw [Process_fetch_none _ _ _ _ hj1
          (by show FindByChannel s.store m.metadata.channel = none
              rw [hstore0]
              rfl)]
      rw [hIng]
      constructor
      · intro _
        exact hstore0
      · intro htrue
        exfalso
        have hbeq : (m.metadata.messageNumber == (1 : Int)) = false :=
          beq_eq_false_iff_ne.mpr hj1
        have htrue' : (A 1 || (m.metadata.messageNumber == (1 : Int))) = true :=
          htrue
        rw [hA1f, hbeq] at htrue'
        simp at htrue'

theorem ingest_perm_aux
    (hnum : msgs.map (fun m => m.metadata.messageNumber) = seqNums N)
    (hch : ∀ m ∈ msgs, m.metadata.channel = ch)
    (hvalid : ∀ m ∈ msgs, msgValid m = true) :
    ∀ (p1 p0 : List Message) (s : ProcState),
    (p0 ++ p1).Perm msgs →
    s.log.Perm (msgs.filter (fun x => arrivedIn p0 x.metadata.messageNumber)) →
    StoreInv msgs N ch (arrivedIn p0) s →
    (ingestAll s p1).log.Perm
      (msgs.filter
        (fun x => arrivedIn (p0 ++ p1) x.metadata.messageNumber)) ∧
    StoreInv msgs N ch (arrivedIn (p0 ++ p1)) (ingestAll s p1) := by
  intro p1
  induction p1 with
  | nil =>
      intro p0 s hperm hlog hstore
      rw [List.append_nil]
      exact ⟨hlog, hstore⟩
  | cons m rest ih =>
      intro p0 s hperm hlog hstore
      have hmem : m ∈ msgs := hperm.subset (by simp)
      have hnodup : ((p0 ++ m :: rest).map
          (fun x => x.metadata.messageNumber)).Nodup := by
        have h1 := hperm.map (fun x => x.metadata.messageNumber)
        exact h1.nodup_iff.mpr (msgs_nodup_num msgs N hnum)
      have hnew : arrivedIn p0 m.metadata.messageNumber = false := by
        rw [List.map_append, List.map_cons] at hnodup
        have hdisj := List.disjoint_of_nodup_append hnodup
        unfold arrivedIn
        rw [List.any_eq_false]
        intro x hx hbeq
        have hxn : x.metadata.messageNumber
            ∈ p0.map (fun y => y.metadata.messageNumber) :=
          List.mem_map_of_mem _ hx
        have hxm : x.metadata.messageNumber
            ∈ m.metadata.messageNumber
              :: rest.map (fun y => y.metadata.messageNumber) := by
          rw [beq_iff_eq] at hbeq
          rw [hbeq]
          exact List.mem_cons_self _ _
        exact hdisj hxn hxm
      have hstep := step_lemma msgs N ch hnum hch hvalid (arrivedIn p0) s
        hlog hstore m hmem hnew
      have hAeq : ∀ x : Int,
          (arrivedIn p0 x || (m.metadata.messageNumber == x))
            = arrivedIn (p0 ++ [m]) x := by
        intro x
        unfold arrivedIn
        rw [List.any_append]
        simp
      have hfun : (fun x => arrivedIn p0 x || (m.metadata.messageNumber == x))
          = arrivedIn (p0 ++ [m]) := funext hAeq
      have hfunMsg : (fun x : Message => arrivedIn p0 x.metadata.messageNumber
            || (m.metadata.messageNumber == x.metadata.messageNumber))
          = (fun x : Message =>
              arrivedIn (p0 ++ [m]) x.metadata.messageNumber) :=
        funext (fun x => hAeq x.metadata.messageNumber)
      rw [hfunMsg, hfun] at hstep
      have hih := ih (p0 ++ [m]) (Ingest s false false false false m).1
        (by rw [List.append_assoc]; simpa using hperm)
        hstep.1 hstep.2
      rw [List.append_assoc] at hih
      simpa using hih

end OrderIndependence

/-- C1 counterexample: the claim over arbitrary fixed message sets with
numbers `1..N` is false — for the set {valid `RocketLaunched` #1,
unknown-kind #2}, the arrival order (1, 2) ends with a persisted
projection for the channel while the order (2, 1) ends with none. -/
theorem order_dependence_with_invalid_message :
    FindByChannel (ingestAll initState [sampleLaunch 1, sampleBogus 2]).store 7
      = some rocketAfterOne ∧
    FindByChannel (ingestAll initState [sampleBogus 2, sampleLaunch 1]).store 7
      = none :=
  ⟨rfl, rfl⟩

/-- C1 (amended): for every channel and every fixed set of *valid*
messages (each applying without a transition error) with distinct
consecutive sequence numbers `1..N`, ingesting all `N` messages in any
arrival permutation yields the same final persisted projection — the
in-order fold of all `N` messages — regardless of the permutation. -/
theorem order_independence (msgs : List Message) (N : ℕ) (ch : Nat)
    (hnum : msgs.map (fun m => m.metadata.messageNumber) = seqNums N)
    (hch : ∀ m ∈ msgs, m.metadata.channel = ch)
    (hvalid : ∀ m ∈ msgs, msgValid m = true)
    (hN : 1 ≤ N)
    (p : List Message) (hp : p.Perm msgs) :
    FindByChannel (ingestAll initState p).store ch
      = some (foldValid (initialRocket ch) msgs) := by
  have haux := ingest_perm_aux msgs N ch hnum hch hvalid p [] initState
    (by simpa using hp)
    (by
      have hf : msgs.filter
          (fun x => arrivedIn [] x.metadata.messageNumber) = [] := by
        rw [List.filter_eq_nil_iff]
        intro a _
        simp [arrivedIn]
      rw [hf]
      exact List.Perm.refl _)
    (by
      constructor
      · intro _
        rfl
      · intro h
        simp [arrivedIn] at h)
  obtain ⟨_, hstoref⟩ := haux
  have hA1 : arrivedIn p 1 = true := by
    obtain ⟨m1, hm1, hm1n⟩ := exists_msg_with_num msgs N hnum 1 (le_refl 1) hN
    have hm1p : m1 ∈ p := hp.mem_iff.mpr hm1
    unfold arrivedIn
    rw [List.any_eq_true]
    refine ⟨m1, hm1p, ?_⟩
    rw [hm1n]
    simp
  obtain ⟨k, hk1, hkN, hAk, hedge, hstoreEq⟩ := hstoref.2 hA1
  have hkn : k = N := by
    rcases hedge with h | h
    · exact h
    · by_contra hne
      obtain ⟨m2, hm2, hm2n⟩ := exists_msg_with_num msgs N hnum (k + 1)
        (by omega) (by omega)
      have hm2p : m2 ∈ p := hp.mem_iff.mpr hm2
      have harr : arrivedIn p ((k : Int) + 1) = true := by
        unfold arrivedIn
        rw [List.any_eq_true]
        refine ⟨m2, hm2p, ?_⟩
        rw [hm2n]
        push_cast
        simp
      have h' : arrivedIn p ((k : Int) + 1) = false := h
      have hcontra : (true : Bool) = false := harr.symm.trans h'
      exact Bool.noConfusion hcontra
  rw [hkn] at hstoreEq
  have htake : msgs.take N = msgs := by
    rw [← msgs_length msgs N hnum, List.take_length]
  rw [hstoreEq, htake, FindByChannel_singleton,
    if_pos (by rw [foldValid_channel_any]; simp [initialRocket])]

/-- C1 witness: the amended theorem at three concrete messages 1..3
arriving in the order (3, 1, 2). -/
theorem order_independence_witness :
    FindByChannel (ingestAll initState
        [sampleInc 3 7, sampleLaunch 1, sampleInc 2 5]).store 7
      = some (foldValid (initialRocket 7)
          [sampleLaunch 1, sampleInc 2 5, sampleInc 3 7]) :=
  order_independence [sampleLaunch 1, sampleInc 2 5, sampleInc 3 7] 3 7
    (by decide) (by decide) (by decide) (by decide)
    [sampleInc 3 7, sampleLaunch 1, sampleInc 2 5] (by decide)

end Rockets
